import Mathlib

/-!
Verification of the beam-search text generator of `ocrd_keraslm`
(`ocrd_keraslm/scripts/run.py`, command `generate`).

The decoder is embedded shallowly:

* `Node` is the hypothesis-tree node (`lib.Node` is not part of the sources
  given, so it is modelled from the spec, section 3/4.1: a character, a local
  cost, a cumulative cost computed from the parent, a parent reference or
  none, and an opaque model state).
* `Rater` is the oracle contract: `predict` maps one `(character, state)`
  pair to a probability distribution (a list of rationals indexed by symbol
  index) and a new state; the batched `rater.predict` of the source is the
  element-wise map of this function, preserving positional order.
  `mapping` is `rater.mapping[1]`, the partial map from symbol index to
  character.
* Costs: the source stores `cost = -log p` per node and orders nodes by the
  sum of costs along the path.  Here a node stores its local probability
  `p`, the cumulative cost is represented by the product `cumProb` of the
  probabilities along the path, and the cost order `cost(a) ≤ cost(b)` is
  the reversed order `cumProb b ≤ cumProb a`.  Since `-log` is strictly
  decreasing on the positive rationals and turns products into sums, this
  representation preserves every comparison and every equality of costs the
  source performs (all surviving probabilities are ≥ 0.004 > 0), while
  staying inside `ℚ` and decidable.
* Python exceptions (`IndexError` from `context[-1]` and `next_fringe[0]`,
  `click` argument rejection) are embedded as `Except` errors.
-/

namespace OcrdKeraslm

variable {σ : Type}

/-- Failure modes of the embedded `generate` command: `usageError` is the
rejection click produces for an out-of-range option, `indexError` is a
Python `IndexError` (empty-string indexing or empty-list indexing). -/
inductive GenErr : Type where
  | usageError : GenErr
  | indexError : GenErr
deriving DecidableEq, Repr

/-- Modelled from the spec: `lib.Node` (spec section 3), a hypothesis-tree
node.  `root` is a node with no parent (the seed, created with cost 0);
`child` stores the parent, the emitted character, the local probability of
that character (the source stores `cost = -log prob`), and the model state
snapshot after emitting the character. -/
inductive Node (σ : Type) : Type where
  | root (value : Char) (state : Option σ)
  | child (parent : Node σ) (value : Char) (prob : ℚ) (state : Option σ)
deriving DecidableEq

/-- The character of a node. -/
def Node.value : Node σ → Char
  | .root v _ => v
  | .child _ v _ _ => v

/-- The model state stored in a node. -/
def Node.state : Node σ → Option σ
  | .root _ s => s
  | .child _ _ _ s => s

/-- Modelled from the spec: cumulative cost, `parent.cum_cost + cost` with 0
at the root, represented multiplicatively as the product of the local
probabilities along the path (root: empty product 1, i.e. cost 0). -/
def Node.cumProb : Node σ → ℚ
  | .root _ _ => 1
  | .child p _ pr _ => Node.cumProb p * pr

/-- Modelled from the spec: `Node.to_sequence()`, the characters from the
root to this node inclusive, in emission order. -/
def Node.toSequence : Node σ → List Char
  | .root v _ => [v]
  | .child p v _ _ => Node.toSequence p ++ [v]

/-- The oracle contract of `lib.Rater` as used by `generate`: `predict` is
the single-pair prediction (the source's batched `rater.predict` is its
element-wise map), `mapping` is `rater.mapping[1]` (symbol index to
character, partial). -/
structure Rater (σ : Type) : Type where
  predict : Char → Option σ → List ℚ × Option σ
  mapping : Nat → Option Char

/-- Insert index `i` into an index list sorted ascending by `pred` value
(stable: among equal values, earlier indices stay first). -/
def insertIdxAsc (pred : List ℚ) (i : Nat) : List Nat → List Nat
  | [] => [i]
  | j :: js =>
    if pred.getD j 0 ≤ pred.getD i 0 then j :: insertIdxAsc pred i js
    else i :: j :: js

/-- `numpy.argsort(pred)`: the indices of `pred` sorted ascending by value
(insertion sort over `0, …, len-1`, stable). -/
def argsort (pred : List ℚ) : List Nat :=
  (List.range pred.length).foldl (fun acc i => insertIdxAsc pred i acc) []

/-- Candidate selection of the source, lines 137-138:
`pred_best = numpy.argsort(pred)[-10:]` (keep only 10-best alternatives)
then `pred_best[numpy.searchsorted(pred[pred_best], 0.004):]` (drop the
ascending prefix of probabilities below 0.004; the source's comment calls
this threshold "1/256").  On the ascending list, `searchsorted` with side
`left` keeps exactly the suffix of values ≥ 0.004, i.e. `dropWhile`. -/
def selectBest (pred : List ℚ) : List Nat :=
  let idxs := argsort pred
  let top := idxs.drop (idxs.length - 10)
  top.dropWhile (fun i => pred.getD i 0 < 4 / 1000)

/-- Cost order on nodes: `costLE a b` means cumulative cost of `a` ≤
cumulative cost of `b`, i.e. `cumProb b ≤ cumProb a` in the multiplicative
representation. -/
def costLE (a b : Node σ) : Prop := Node.cumProb b ≤ Node.cumProb a

instance : DecidableRel (@costLE σ) := fun a b =>
  inferInstanceAs (Decidable (Node.cumProb b ≤ Node.cumProb a))

instance : IsTotal (Node σ) costLE :=
  ⟨fun a b => le_total (Node.cumProb b) (Node.cumProb a)⟩

instance : IsTrans (Node σ) costLE :=
  ⟨fun _ _ _ hab hbc => le_trans hbc hab⟩

/-- `bisect.insort_left(a, x)` with the node order of the spec (by
cumulative cost ascending): walk past the elements of strictly smaller
cost and insert `x` before the first element of greater *or equal* cost
(this is the `left` variant: a new node is placed before existing
equal-cost nodes).  In the multiplicative representation, `y` has strictly
smaller cost than `x` iff `x.cumProb < y.cumProb`. -/
def insortLeft (x : Node σ) : List (Node σ) → List (Node σ)
  | [] => [x]
  | y :: ys =>
    if Node.cumProb x < Node.cumProb y then y :: insortLeft x ys
    else x :: y :: ys

/-- Expansion of one fringe node (source lines 136-144): query the oracle,
select the candidate symbol indices, skip indices absent from the mapping,
and build one child node per surviving candidate, in selection order (the
order in which the source inserts them into `next_fringe`).  All children
share the parent's freshly predicted state. -/
def expandNode (r : Rater σ) (n : Node σ) : List (Node σ) :=
  let ps := r.predict (Node.value n) (Node.state n)
  let pred := ps.1
  let st := ps.2
  (selectBest pred).filterMap fun i =>
    (r.mapping i).map fun c => Node.child n c (pred.getD i 0) st

/-- Fold a batch of new nodes into an accumulator via `insort_left`, in
order. -/
def insertAll (xs : List (Node σ)) (acc : List (Node σ)) : List (Node σ) :=
  xs.foldl (fun a c => insortLeft c a) acc

/-- The combined next-generation candidate pool of one step (source lines
134-145): start from the empty list and `insort_left` every child of every
fringe node, fringe nodes in order, children in selection order. -/
def poolOfFringe (r : Rater σ) (fringe : List (Node σ)) : List (Node σ) :=
  fringe.foldl (fun acc n => insertAll (expandNode r n) acc) []

/-- The candidates of one step in insertion order (before any sorting):
the children of the fringe nodes, fringe order first, selection order
within a node. -/
def candidateList (r : Rater σ) (fringe : List (Node σ)) : List (Node σ) :=
  fringe.foldl (fun l n => l ++ expandNode r n) []

/-- One iteration of the step loop: build the pool, then
`next_fringe = next_fringe[:256]` (source line 146). -/
def stepFringe (r : Rater σ) (fringe : List (Node σ)) : List (Node σ) :=
  (poolOfFringe r fringe).take 256

/-- The fringe after `k` iterations of the step loop, starting from `f0`. -/
def genFringe (r : Rater σ) (f0 : List (Node σ)) : Nat → List (Node σ)
  | 0 => f0
  | k + 1 => stepFringe r (genFringe r f0 k)

/-- Warm-up (source lines 123-126): starting from the initial state `None`,
feed every character of the context except the last to the oracle (batch
size 1), keeping only the state and discarding the distribution. -/
def warmUpState (r : Rater σ) (context : String) : Option σ :=
  context.toList.dropLast.foldl (fun s c => (r.predict c s).2) none

/-- The initial fringe (source lines 127-129): the single seed node whose
value is the last context character, cost 0, state the warm-up state.
`none` when the context is empty (`context[-1]` raises `IndexError`). -/
def initFringe (r : Rater σ) (context : String) : Option (List (Node σ)) :=
  match context.toList.getLast? with
  | none => none
  | some last => some [Node.root last (warmUpState r context)]

/-- The fringe the run of `generate r context` holds after `k` steps, or
`none` when the context is empty. -/
def genFringeAt (r : Rater σ) (context : String) (k : Nat) :
    Option (List (Node σ)) :=
  (initFringe r context).map fun f0 => genFringe r f0 k

/-- The `generate` command body after model loading (source lines 122-149):
warm up on the context, seed the fringe, run `number` beam-search steps,
take the best (first) node of the final fringe, and print
`context[:-1] + ''.join(best.to_sequence())`.  Empty context makes
`context[-1]` raise `IndexError`; an empty final fringe makes
`next_fringe[0]` raise `IndexError`. -/
def generate (r : Rater σ) (context : String) (number : Nat) :
    Except GenErr String :=
  match initFringe r context with
  | none => .error .indexError
  | some f0 =>
    match (genFringe r f0 number).head? with
    | none => .error .indexError
    | some best =>
      .ok (String.mk (context.toList.dropLast ++ Node.toSequence best))

/-- The CLI layer of the `generate` command (source line 108):
`--number` has type `click.IntRange(min=1, max=10000)`, so click rejects
any value outside `1..10000` before the model is loaded or the oracle
invoked; otherwise the command body runs. -/
def generateCommand (r : Rater σ) (number : Int) (context : String) :
    Except GenErr String :=
  if 1 ≤ number ∧ number ≤ 10000 then generate r context number.toNat
  else .error .usageError

/-- Stub oracle of spec Scenario A: alphabet `{a, b}`, every prediction is
`{a: 0.9, b: 0.1}` regardless of state. -/
def stubAB : Rater Unit where
  predict := fun _ _ => ([9 / 10, 1 / 10], none)
  mapping := fun i => if i = 0 then some 'a' else if i = 1 then some 'b' else none

/-- A second stub, extensionally equal to `stubAB` but syntactically
different (a dead branch in `predict`). -/
def stubAB' : Rater Unit where
  predict := fun _ _ => if (0 : Nat) = 1 then ([], none) else ([9 / 10, 1 / 10], none)
  mapping := fun i => if i = 0 then some 'a' else if i = 1 then some 'b' else none

/-- Stub oracle with distribution `{a: 0.6, b: 0.4}` regardless of state. -/
def stub64 : Rater Unit where
  predict := fun _ _ => ([6 / 10, 4 / 10], none)
  mapping := fun i => if i = 0 then some 'a' else if i = 1 then some 'b' else none

/-- Stub oracle whose probabilities all lie below the 0.004 pruning
threshold, so every expansion step produces an empty pool. -/
def stubLow : Rater Unit where
  predict := fun _ _ => ([1 / 1000, 1 / 1000], none)
  mapping := fun i => if i = 0 then some 'a' else if i = 1 then some 'b' else none

/-! ### Helper lemmas -/

theorem head?_mem_self {α : Type} {l : List α} {a : α} (h : l.head? = some a) :
    a ∈ l := by
  cases l with
  | nil => simp at h
  | cons b t => simp at h; exact h ▸ List.mem_cons_self b t

theorem insortLeft_eq_orderedInsert (x : Node σ) :
    ∀ l, insortLeft x l = List.orderedInsert costLE x l
  | [] => rfl
  | y :: ys => by
    simp only [insortLeft, List.orderedInsert]
    by_cases h : Node.cumProb x < Node.cumProb y
    · rw [if_pos h, if_neg (by simpa [costLE, not_le] using h),
        insortLeft_eq_orderedInsert x ys]
    · rw [if_neg h, if_pos (by simpa [costLE] using not_lt.mp h)]

theorem sorted_insortLeft {l : List (Node σ)} (h : List.Sorted costLE l)
    (x : Node σ) : List.Sorted costLE (insortLeft x l) := by
  rw [insortLeft_eq_orderedInsert]
  exact h.orderedInsert x l

theorem sorted_insertAll :
    ∀ (xs : List (Node σ)) {acc : List (Node σ)}, List.Sorted costLE acc →
      List.Sorted costLE (insertAll xs acc)
  | [], _, h => h
  | x :: xs, _, h => sorted_insertAll xs (sorted_insortLeft h x)

theorem insertAll_append (xs ys acc : List (Node σ)) :
    insertAll (xs ++ ys) acc = insertAll ys (insertAll xs acc) :=
  List.foldl_append ..

theorem pool_eq_aux (r : Rater σ) :
    ∀ (f : List (Node σ)) (c0 acc : List (Node σ)),
      f.foldl (fun acc n => insertAll (expandNode r n) acc) (insertAll c0 acc)
        = insertAll (f.foldl (fun l n => l ++ expandNode r n) c0) acc
  | [], _, _ => rfl
  | n :: f, c0, acc => by
    show f.foldl _ (insertAll (expandNode r n) (insertAll c0 acc)) = _
    rw [← insertAll_append]
    exact pool_eq_aux r f (c0 ++ expandNode r n) acc

theorem poolOfFringe_eq_insertAll (r : Rater σ) (f : List (Node σ)) :
    poolOfFringe r f = insertAll (candidateList r f) [] :=
  pool_eq_aux r f [] []

theorem sorted_poolOfFringe (r : Rater σ) (f : List (Node σ)) :
    List.Sorted costLE (poolOfFringe r f) := by
  rw [poolOfFringe_eq_insertAll]
  exact sorted_insertAll _ List.sorted_nil

theorem mem_insortLeft {x y : Node σ} :
    ∀ (l : List (Node σ)), x ∈ insortLeft y l ↔ x = y ∨ x ∈ l
  | [] => by simp [insortLeft]
  | z :: zs => by
    simp only [insortLeft]
    split
    · simp [mem_insortLeft zs]; tauto
    · simp

theorem mem_insertAll {x : Node σ} :
    ∀ (xs acc : List (Node σ)), x ∈ insertAll xs acc ↔ x ∈ xs ∨ x ∈ acc
  | [], _ => by simp [insertAll]
  | y :: ys, acc => by
    show x ∈ insertAll ys (insortLeft y acc) ↔ _
    rw [mem_insertAll ys]
    simp [mem_insortLeft]
    tauto

theorem mem_candidate_aux {r : Rater σ} {x : Node σ} :
    ∀ (f c0 : List (Node σ)),
      x ∈ f.foldl (fun l n => l ++ expandNode r n) c0
        ↔ x ∈ c0 ∨ ∃ n ∈ f, x ∈ expandNode r n
  | [], _ => by simp
  | m :: f, c0 => by
    show x ∈ f.foldl _ (c0 ++ expandNode r m) ↔ _
    rw [mem_candidate_aux f]
    simp [List.mem_append]
    tauto

theorem mem_candidateList {r : Rater σ} {x : Node σ} {f : List (Node σ)} :
    x ∈ candidateList r f ↔ ∃ n ∈ f, x ∈ expandNode r n := by
  unfold candidateList
  rw [mem_candidate_aux]
  simp

theorem mem_stepFringe {r : Rater σ} {x : Node σ} {f : List (Node σ)}
    (h : x ∈ stepFringe r f) : ∃ n ∈ f, x ∈ expandNode r n := by
  have hx : x ∈ poolOfFringe r f :=
    (List.take_sublist 256 _).subset h
  rw [poolOfFringe_eq_insertAll, mem_insertAll] at hx
  rcases hx with hx | hx
  · exact mem_candidateList.mp hx
  · simp at hx

theorem toSequence_length_expand {r : Rater σ} {n x : Node σ}
    (h : x ∈ expandNode r n) :
    (Node.toSequence x).length = (Node.toSequence n).length + 1 := by
  simp only [expandNode, List.mem_filterMap] at h
  obtain ⟨i, _, hmap⟩ := h
  obtain ⟨c, _, rfl⟩ := Option.map_eq_some'.mp hmap
  simp [Node.toSequence]

theorem genFringe_toSequence_length {r : Rater σ} {f0 : List (Node σ)}
    (h0 : ∀ x ∈ f0, (Node.toSequence x).length = 1) :
    ∀ (k : Nat), ∀ x ∈ genFringe r f0 k, (Node.toSequence x).length = k + 1
  | 0, x, hx => h0 x hx
  | k + 1, x, hx => by
    obtain ⟨n, hn, hexp⟩ := mem_stepFringe hx
    rw [toSequence_length_expand hexp,
      genFringe_toSequence_length h0 k n hn]

theorem stepFringe_nil (r : Rater σ) : stepFringe r [] = [] := rfl

theorem genFringe_empty_le {r : Rater σ} {f0 : List (Node σ)} {k n : Nat}
    (hk : genFringe r f0 k = []) (h : k ≤ n) : genFringe r f0 n = [] := by
  induction h with
  | refl => exact hk
  | step _ ih => show stepFringe r _ = []; rw [ih]; rfl

theorem foldl_state_congr {r r' : Rater σ}
    (h : ∀ c s, (r'.predict c s).2 = (r.predict c s).2) :
    ∀ (l : List Char) (s : Option σ),
      l.foldl (fun s c => (r'.predict c s).2) s
        = l.foldl (fun s c => (r.predict c s).2) s
  | [], _ => rfl
  | c :: l, s => by
    show List.foldl _ (r'.predict c s).2 l = _
    rw [h c s]
    exact foldl_state_congr h l _

theorem filter_insortLeft_eq {q : ℚ} {x : Node σ} (hx : Node.cumProb x = q) :
    ∀ l : List (Node σ),
      (insortLeft x l).filter (fun n => Node.cumProb n = q)
        = x :: l.filter (fun n => Node.cumProb n = q)
  | [] => by simp [insortLeft, hx]
  | y :: ys => by
    simp only [insortLeft]
    split
    · rename_i hlt
      have hy : Node.cumProb y ≠ q := by rw [← hx]; exact hlt.ne'
      simp [List.filter_cons, hy, filter_insortLeft_eq hx ys]
    · simp [List.filter_cons, hx]

theorem filter_insortLeft_ne {q : ℚ} {x : Node σ} (hx : Node.cumProb x ≠ q) :
    ∀ l : List (Node σ),
      (insortLeft x l).filter (fun n => Node.cumProb n = q)
        = l.filter (fun n => Node.cumProb n = q)
  | [] => by simp [insortLeft, hx]
  | y :: ys => by
    simp only [insortLeft]
    split
    · simp [List.filter_cons, filter_insortLeft_ne hx ys]
    · simp [List.filter_cons, hx]

theorem filter_insertAll (q : ℚ) :
    ∀ (xs acc : List (Node σ)),
      (insertAll xs acc).filter (fun n => Node.cumProb n = q)
        = (xs.filter (fun n => Node.cumProb n = q)).reverse
            ++ acc.filter (fun n => Node.cumProb n = q)
  | [], acc => by simp [insertAll]
  | x :: xs, acc => by
    show (insertAll xs (insortLeft x acc)).filter _ = _
    rw [filter_insertAll q xs]
    by_cases hx : Node.cumProb x = q
    · simp [filter_insortLeft_eq hx, hx, List.filter_cons]
    · simp [filter_insortLeft_ne hx, hx, List.filter_cons]

/-! ### Claim theorems -/

unseal Rat.mul Rat.inv in
/-- C1 (counterexample): the claimed output length `len(context) - 1 + steps`
fails on a concrete run.  With the Scenario-A stub oracle,
`generate "ab" 3` succeeds with output `"abaaa"` of length 5, while
`len("ab") - 1 + 3 = 4`: the output also contains the seed character
(the last context character), so it is one longer than claimed. -/
theorem generate_length_minus_one_cex :
    generate stubAB "ab" 3 = Except.ok "abaaa"
      ∧ "abaaa".length ≠ "ab".length - 1 + 3 :=
  ⟨rfl, by decide⟩

/-- C1 (amended): for every successful call `generate context steps`, the
output string has length `len(context) + steps` (the printed string is
`context[:-1]` plus the best node's `to_sequence()`, which contains the seed
character and one character per step). -/
theorem generate_length {σ : Type} (r : Rater σ) (ctx : String) (n : Nat)
    (s : String) (h : generate r ctx n = Except.ok s) :
    s.length = ctx.length + n := by
  unfold generate at h
  split at h
  · exact Except.noConfusion h
  · rename_i f0 h0
    split at h
    · exact Except.noConfusion h
    · rename_i best hb
      injection h with h
      subst h
      unfold initFringe at h0
      cases hl : ctx.toList.getLast? with
      | none => rw [hl] at h0; exact Option.noConfusion h0
      | some last =>
        rw [hl] at h0
        injection h0 with h0
        have hmem : best ∈ genFringe r f0 n := head?_mem_self hb
        have hlen1 : ∀ x ∈ f0, (Node.toSequence x).length = 1 := by
          intro x hx
          rw [← h0] at hx
          simp at hx
          subst hx
          rfl
        have hbl := genFringe_toSequence_length hlen1 n best hmem
        have hctx : ctx.toList ≠ [] := by
          intro hc; rw [hc] at hl; exact Option.noConfusion hl
        have hpos : 0 < ctx.toList.length := List.length_pos.mpr hctx
        show (ctx.toList.dropLast ++ Node.toSequence best).length = ctx.length + n
        rw [List.length_append, List.length_dropLast, hbl]
        have hceq : ctx.length = ctx.toList.length := rfl
        rw [hceq]
        omega

unseal Rat.mul Rat.inv in
/-- C1 (witness for the amended theorem): the concrete successful run
`generate stubAB "ab" 3 = ok "abaaa"` has output length `2 + 3`. -/
theorem generate_length_witness : "abaaa".length = "ab".length + 3 :=
  generate_length stubAB "ab" 3 "abaaa" rfl

unseal Rat.mul Rat.inv in
/-- C2: with alphabet `{a, b}` and a stub oracle that always returns the
distribution `{a: 0.9, b: 0.1}` regardless of state,
`generate "a"` with 3 steps outputs exactly `"aaaa"`. -/
theorem generate_scenarioA : generate stubAB "a" 3 = Except.ok "aaaa" := rfl

unseal Rat.mul Rat.inv in
/-- C3 (code bug): the source's own comment (line 138) says it keeps "only
alternatives better than 1/256 (uniform distribution)", and the spec fixes
`min_probability = 1/256`, but the code compares against the literal
`0.004 > 1/256`.  At the distribution `[9/10, 1/255]`, symbol 1 has
probability `1/255 ≥ 1/256` and is within the top 10, yet the code's
selection drops it (`selectBest` keeps only symbol 0), because
`1/255 < 0.004`. -/
theorem selectBest_threshold_code_bug :
    selectBest [9 / 10, 1 / 255] = [0]
      ∧ (1 : ℚ) / 256 ≤ 1 / 255 ∧ (1 : ℚ) / 255 < 4 / 1000 :=
  ⟨rfl, by decide, by decide⟩

/-- C4: after every step's truncation (`next_fringe = next_fringe[:256]`),
the frontier has at most 256 nodes and is fully sorted ascending by
cumulative cost — `costLE a b` encodes `cum_cost a ≤ cum_cost b` as
`cumProb b ≤ cumProb a`.  This holds for every generation `k + 1` of the
step loop, for every oracle and every starting fringe. -/
theorem beam_frontier_invariant {σ : Type} (r : Rater σ)
    (f0 : List (Node σ)) (k : Nat) :
    (genFringe r f0 (k + 1)).length ≤ 256
      ∧ List.Sorted costLE (genFringe r f0 (k + 1)) := by
  constructor
  · show ((poolOfFringe r (genFringe r f0 k)).take 256).length ≤ 256
    exact List.length_take_le 256 _
  · show List.Sorted costLE ((poolOfFringe r (genFringe r f0 k)).take 256)
    exact (sorted_poolOfFringe r _).sublist (List.take_sublist 256 _)

unseal Rat.mul Rat.inv in
/-- C5 (counterexample): equal-cost nodes are *not* ordered by insertion
sequence.  With the stub oracle `{a: 0.6, b: 0.4}` and context `"a"`, the
fringe after one step is `[aa (cum 6/25·…), ab]`; in the second step the two
candidates of cumulative probability `6/25` (equal cumulative cost) are
produced in insertion order `aab` then `aba`, but `insort_left` places the
later-inserted `aba` *before* the earlier-inserted `aab` in the combined
pool. -/
theorem pool_insertion_stable_cex :
    genFringeAt stub64 "a" 1
        = some [Node.child (Node.root 'a' none) 'a' (6 / 10) none,
                Node.child (Node.root 'a' none) 'b' (4 / 10) none]
      ∧ ((candidateList stub64
            [Node.child (Node.root 'a' none) 'a' (6 / 10) none,
             Node.child (Node.root 'a' none) 'b' (4 / 10) none]).filter
            (fun x => Node.cumProb x = 6 / 25)).map Node.toSequence
          = [['a', 'a', 'b'], ['a', 'b', 'a']]
      ∧ ((poolOfFringe stub64
            [Node.child (Node.root 'a' none) 'a' (6 / 10) none,
             Node.child (Node.root 'a' none) 'b' (4 / 10) none]).filter
            (fun x => Node.cumProb x = 6 / 25)).map Node.toSequence
          = [['a', 'b', 'a'], ['a', 'a', 'b']] :=
  ⟨rfl, rfl, rfl⟩

/-- C5 (amended): in the combined next-generation candidate pool, nodes of
equal cumulative cost are ordered by *reverse* insertion sequence
(later-inserted first), because `insort_left` inserts a new node to the
left of existing equal-cost nodes: for every cost class `q`, the pool
restricted to cumulative probability `q` is the reverse of the insertion
list restricted to `q`. -/
theorem pool_equal_cost_reverse_insertion {σ : Type} (r : Rater σ)
    (fringe : List (Node σ)) (q : ℚ) :
    (poolOfFringe r fringe).filter (fun x => Node.cumProb x = q)
      = ((candidateList r fringe).filter
          (fun x => Node.cumProb x = q)).reverse := by
  rw [poolOfFringe_eq_insertAll, filter_insertAll]
  simp

/-- C6: for a non-empty context, the warm-up feeds exactly the characters of
`context[:-1]` to the oracle sequentially starting from the start state
`none`, keeping only the state (any oracle with the same state component
yields the same warm-up state, i.e. the distributions are discarded); the
seed fringe is the single root node whose value is the last context
character, with cost 0 (`cumProb = 1`) and the warm-up state; and for a
context of length 1 no character is pre-fed: the warm-up state is the start
state `none`. -/
theorem warmup_and_seed {σ : Type} (r r' : Rater σ) (ctx : String)
    (h : ctx ≠ "") (hpr : ∀ c s, (r'.predict c s).2 = (r.predict c s).2) :
    initFringe r ctx
        = some [Node.root (ctx.toList.getLastD 'A') (warmUpState r ctx)]
      ∧ Node.cumProb
          (Node.root (ctx.toList.getLastD 'A') (warmUpState r ctx) : Node σ)
          = 1
      ∧ warmUpState r ctx
          = ctx.toList.dropLast.foldl (fun s c => (r.predict c s).2) none
      ∧ warmUpState r' ctx = warmUpState r ctx
      ∧ (ctx.length = 1 → warmUpState r ctx = none) := by
  have hne : ctx.toList ≠ [] := by
    cases ctx with
    | mk dat =>
      intro hc
      apply h
      show String.mk dat = ""
      rw [show dat = [] from hc]
  cases hl : ctx.toList.getLast? with
  | none => exact absurd (List.getLast?_eq_none_iff.mp hl) hne
  | some a =>
    have hd : ctx.toList.getLastD 'A' = a := by
      rw [List.getLastD_eq_getLast?, hl]; rfl
    refine ⟨?_, rfl, rfl, foldl_state_congr hpr _ _, ?_⟩
    · simp only [initFringe, hl, hd]
    · intro h1
      have h1' : ctx.toList.length = 1 := h1
      obtain ⟨c, hc⟩ := List.length_eq_one.mp h1'
      simp only [warmUpState]
      rw [hc]
      rfl

/-- C6 (witness): the single-character context `"x"` with the Scenario-A
stub: the seed is `root 'x'` with the start state and cost 0, and no
character is pre-fed. -/
theorem warmup_and_seed_witness :
    initFringe stubAB "x"
        = some [Node.root ("x".toList.getLastD 'A') (warmUpState stubAB "x")]
      ∧ Node.cumProb
          (Node.root ("x".toList.getLastD 'A') (warmUpState stubAB "x")
            : Node Unit) = 1
      ∧ warmUpState stubAB "x"
          = "x".toList.dropLast.foldl (fun s c => (stubAB.predict c s).2) none
      ∧ warmUpState stubAB' "x" = warmUpState stubAB "x"
      ∧ ("x".length = 1 → warmUpState stubAB "x" = none) :=
  warmup_and_seed stubAB stubAB' "x" (by decide) (fun _ _ => rfl)

/-- C7: if some expansion step of the run of `generate` produces an empty
next-generation frontier, the call fails with the (uncaught `IndexError` of
`next_fringe[0]`, embedded as) decoding failure `indexError`: it never
returns a truncated or empty output string, because emptiness persists
through the remaining steps and the final best-node extraction fails. -/
theorem empty_frontier_fails {σ : Type} (r : Rater σ) (ctx : String)
    (n k : Nat) (hk : k ≤ n) (h : genFringeAt r ctx k = some []) :
    generate r ctx n = Except.error GenErr.indexError := by
  unfold genFringeAt at h
  cases h0 : initFringe r ctx with
  | none => rw [h0] at h; exact Option.noConfusion h
  | some f0 =>
    rw [h0] at h
    simp only [Option.map_some'] at h
    injection h with h
    have hn := genFringe_empty_le h hk
    simp [generate, h0, hn]

unseal Rat.mul Rat.inv in
/-- C7 (witness): with the stub oracle whose probabilities all fall below
the pruning threshold, the first step empties the frontier and
`generate "a" 1` fails with `indexError`. -/
theorem empty_frontier_fails_witness :
    generate stubLow "a" 1 = Except.error GenErr.indexError :=
  empty_frontier_fails stubLow "a" 1 1 (le_refl 1) rfl

/-- C8 (counterexample): an empty context string is *not* rejected up front
with a descriptive validation error: the CLI range check passes (`--number 3`
is in range), the model is loaded, and the call then fails with the
uncaught `IndexError` of `context[-1]` (embedded `indexError`), which is
distinct from the validation rejection `usageError` that click produces for
out-of-range parameters. -/
theorem empty_context_not_validated_cex :
    generateCommand stubAB 3 "" = Except.error GenErr.indexError
      ∧ GenErr.indexError ≠ GenErr.usageError :=
  ⟨rfl, by decide⟩

/-- C8 (amended): `steps < 1` is rejected up front by the CLI argument-range
validation (`click.IntRange(min=1, max=10000)`) with a usage error, before
the model is loaded or the oracle invoked; an empty context is not
validated, but fails before any oracle prediction with an index error when
the seed node takes the last context character (for every oracle `r`). -/
theorem invalid_params_amended {σ : Type} (r : Rater σ) (n : Int)
    (ctx : String) (m : Nat) (h : n < 1) :
    generateCommand r n ctx = Except.error GenErr.usageError
      ∧ generate r "" m = Except.error GenErr.indexError := by
  constructor
  · have hout : ¬(1 ≤ n ∧ n ≤ 10000) := by omega
    simp [generateCommand, hout]
  · rfl

/-- C8 (witness for the amended theorem): `--number 0` is rejected with the
usage error, and the empty context fails with the index error. -/
theorem invalid_params_amended_witness :
    generateCommand stubAB 0 "a" = Except.error GenErr.usageError
      ∧ generate stubAB "" 2 = Except.error GenErr.indexError :=
  invalid_params_amended stubAB 0 "a" 2 (by decide)

/-- C9: `generate` is deterministic: for any two oracles that agree
pointwise (same distribution and new state for the same `(character,
state)` input, same index-to-character mapping), runs with identical
context and step count produce identical results. -/
theorem generate_deterministic {σ : Type} (r r' : Rater σ)
    (hp : ∀ c s, r.predict c s = r'.predict c s)
    (hm : ∀ i, r.mapping i = r'.mapping i) (ctx : String) (n : Nat) :
    generate r ctx n = generate r' ctx n := by
  have heq : r = r' := by
    obtain ⟨p, m⟩ := r
    obtain ⟨p', m'⟩ := r'
    congr 1
    · funext c s; exact hp c s
    · funext i; exact hm i
  rw [heq]

/-- C9 (witness): two syntactically different but pointwise-equal stubs
produce the same output on `("ab", 2)`. -/
theorem generate_deterministic_witness :
    generate stubAB "ab" 2 = generate stubAB' "ab" 2 :=
  generate_deterministic stubAB stubAB' (fun _ _ => rfl) (fun _ => rfl) "ab" 2

/-- C10: the `generate` CLI accepts `--number` only in `1..10000`
(`click.IntRange(min=1, max=10000)`): any value outside the range is
rejected with a usage error before the model is loaded or the oracle
invoked (the result is the same for every oracle `r`), and an in-range
value runs the command body. -/
theorem number_range_check {σ : Type} (r : Rater σ) (n : Int)
    (ctx : String) :
    (¬(1 ≤ n ∧ n ≤ 10000)
        → generateCommand r n ctx = Except.error GenErr.usageError)
      ∧ ((1 ≤ n ∧ n ≤ 10000)
        → generateCommand r n ctx = generate r ctx n.toNat) := by
  constructor <;> intro h <;> simp [generateCommand, h]

/-- C10 (witness): `--number 10001` is rejected with the usage error, while
`--number 3` runs the command body. -/
theorem number_range_check_witness :
    generateCommand stubAB 10001 "a" = Except.error GenErr.usageError
      ∧ generateCommand stubAB 3 "a" = generate stubAB "a" 3 :=
  ⟨(number_range_check stubAB 10001 "a").1 (by decide),
   (number_range_check stubAB 3 "a").2 (by decide)⟩

end OcrdKeraslm
